import Mathlib

/-!
# Verification of the SSM params injector library

A shallow embedding of `src/lib/index.ts`, the parameter-store injection
library: JSON-like runtime values, the default item parser, the recursive
entry finder, the batched by-name fetcher, the paginated by-path fetcher,
tree reconstruction, and the `inject` orchestrator.

Modelling conventions:
* JavaScript runtime values are the inductive `JsVal` (null, booleans,
  numbers, strings, arrays, insertion-ordered objects).  Numbers are `Int`
  (no float behaviour is relevant to any property proved here); strings are
  treated as sequences of characters (code points assumed to lie in the
  basic plane, so JS `.length` and character indexing agree with `List Char`
  positions).
* Thrown exceptions become `Except JsError`.  An `async` function's body is
  a pure computation returning `Except`; a rejected promise that is never
  awaited is a discarded `Except.error` (see `inject`).
* Mutation through the `parent` object references held by entries is
  modelled with explicit slot handles: an entry stores the key path from the
  root to its parent object, and "mutating the parent" is a functional
  update of the tree at that path.  (The repository's own design notes
  suggest exactly this translation of the aliasing.)
* The remote SSM client is a pair of response functions (`SSMClient`); the
  sequence of requests a routine issues is computed alongside its result
  where a claim is about calls.  Pagination recursion is driven by fuel;
  theorems show any fuel at least the page count suffices.
-/

/-- JSON-like JavaScript runtime values: `null`, booleans, numbers, strings,
arrays, and insertion-ordered string-keyed objects. -/
inductive JsVal where
  | vNull : JsVal
  | vBool : Bool → JsVal
  | vNum : Int → JsVal
  | vStr : String → JsVal
  | vArr : List JsVal → JsVal
  | vObj : List (String × JsVal) → JsVal
deriving Repr

/-- JavaScript `typeof v === "object"` (true for `null`, arrays, objects). -/
def typeofObject : JsVal → Bool
  | .vNull => true
  | .vArr _ => true
  | .vObj _ => true
  | _ => false

/-- JavaScript `typeof v === "string"`. -/
def typeofString : JsVal → Bool
  | .vStr _ => true
  | _ => false

/-- JavaScript truthiness of a value (`""`, `0`, `false`, `null` are falsy;
all arrays and objects are truthy). -/
def jsTruthy : JsVal → Bool
  | .vNull => false
  | .vBool b => b
  | .vNum n => n != 0
  | .vStr s => s ≠ ""
  | .vArr _ => true
  | .vObj _ => true

/-- Property lookup on an insertion-ordered object. -/
def jsLookup {α : Type} (o : List (String × α)) (k : String) : Option α :=
  (o.find? (fun kv => kv.1 = k)).map (fun kv => kv.2)

/-- JavaScript property assignment `o[k] = v`: an existing key keeps its
position and gets the new value; a new key is appended at the end. -/
def jsAssign {α : Type} (o : List (String × α)) (k : String) (v : α) :
    List (String × α) :=
  if o.any (fun kv => kv.1 = k) then
    o.map (fun kv => if kv.1 = k then (k, v) else kv)
  else
    o ++ [(k, v)]

/-- JavaScript `delete o[k]` (a no-op when the key is absent). -/
def jsDelete {α : Type} (o : List (String × α)) (k : String) :
    List (String × α) :=
  o.filter (fun kv => kv.1 ≠ k)

/-- Errors thrown by the library at runtime. -/
inductive JsError where
  | typeError : String → JsError
  | error : String → JsError
  | invalidParametersError : List String → JsError
deriving Repr, DecidableEq

/-- Message of `InvalidParametersError` (the source spells "paramter"). -/
def invalidParametersMessage (invalidParameters : List String) : String :=
  "Could not load SSM paramter(s): " ++ String.intercalate ", " invalidParameters

/-- JS `s.split(c)` for a one-character separator: `""` yields `[""]`,
and separators at the ends produce empty fragments. -/
def splitCharList (c : Char) (l : List Char) : List String :=
  l.foldr
    (fun ch acc =>
      match acc with
      | [] => []
      | hd :: tl =>
        if ch = c then "" :: hd :: tl else String.mk (ch :: hd.toList) :: tl)
    [""]

/-- JS `s.split(c)` on a string. -/
def jsSplit (s : String) (c : Char) : List String :=
  splitCharList c s.toList

/-- JS `s.lastIndexOf(c)` for a one-character needle: the index of the last
occurrence, `-1` when absent. -/
def jsLastIndexOf (s : String) (c : Char) : Int :=
  match (s.toList.enum.filter (fun p => p.2 = c)).getLast? with
  | some p => (p.1 : Int)
  | none => -1

/-- JS `s.substr(start)` for a non-negative start: the suffix from that
character position (empty when the start is past the end). -/
def jsSubstrFrom (s : String) (start : Int) : String :=
  String.mk (s.toList.drop start.toNat)

/-- JS `s.substring(a, b)`: both indices clamped into `[0, length]` and
swapped when out of order. -/
def jsSubstring (s : String) (a b : Int) : String :=
  let n : Int := (s.length : Int)
  let a' := min (max a 0) n
  let b' := min (max b 0) n
  let lo := (min a' b').toNat
  let hi := (max a' b').toNat
  String.mk ((s.toList.drop lo).take (hi - lo))

/-- JS `s.endsWith("/")`. -/
def jsEndsWithSlash (s : String) : Bool :=
  s.toList.getLast? = some '/'

/-! ## The remote SSM service model (`interface SSM` and its request/response
records in `src/lib/index.ts`).  Optional fields are `Option`; a response
function stands in for the remote service (the client is deterministic from
the model's point of view: the same request yields the same response). -/

/-- `SSM.Parameter`. -/
structure Parameter where
  Name : Option String := none
  «Type» : Option String := none
  Value : Option String := none
  Version : Option Int := none
  Selector : Option String := none
deriving Repr, DecidableEq

/-- `SSM.GetParametersRequest`. -/
structure GetParametersRequest where
  Names : List String
  WithDecryption : Bool
deriving Repr, DecidableEq

/-- `SSM.GetParametersResult`. -/
structure GetParametersResult where
  Parameters : Option (List Parameter) := none
  InvalidParameters : Option (List String) := none
deriving Repr, DecidableEq

/-- `SSM.GetParametersByPathRequest`.  `Recursive` carries the raw runtime
value the library passes (the TS cast `value.recursive as boolean` performs
no runtime check, so it need not be a boolean). -/
structure GetParametersByPathRequest where
  Path : String
  Recursive : Option JsVal := none
  WithDecryption : Bool
  NextToken : Option String := none
deriving Repr

/-- `SSM.GetParametersByPathResult`. -/
structure GetParametersByPathResult where
  Parameters : Option (List Parameter) := none
  NextToken : Option String := none
deriving Repr, DecidableEq

/-- The remote client: one deterministic response function per operation. -/
structure SSMClient where
  getParameters : GetParametersRequest → GetParametersResult
  getParametersByPath : GetParametersByPathRequest → GetParametersByPathResult

/-- `ByNameEntryData`. -/
structure ByNameEntryData where
  name : String
deriving Repr, DecidableEq

/-- `ByPathEntryData` (`recursive` holds the raw runtime value, see
`GetParametersByPathRequest.Recursive`). -/
structure ByPathEntryData where
  path : String
  recursive : Option JsVal := none
deriving Repr

/-- `GET_PARAMETERS_LIMIT`. -/
def GET_PARAMETERS_LIMIT : Nat := 10

/-- The batches produced by the slicing loop in `getParameters`:
`names.slice(i, i + GET_PARAMETERS_LIMIT)` for `i = 0, 10, 20, …`, i.e.
consecutive chunks of at most 10 names.  Structural worker: the fuel only
bounds the number of iterations (any fuel at least the list length is
enough; `chunkNames` passes exactly the list length, and one iteration
consumes at least one element). -/
def chunkNamesGo : Nat → List String → List (List String)
  | _, [] => []
  | 0, _ :: _ => []
  | fuel + 1, n :: rest =>
    (n :: rest).take GET_PARAMETERS_LIMIT ::
      chunkNamesGo fuel ((n :: rest).drop GET_PARAMETERS_LIMIT)

/-- The batches of the slicing loop, with the iteration count bounded by
the length of the list itself (see `chunkNamesGo`). -/
def chunkNames (names : List String) : List (List String) :=
  chunkNamesGo names.length names

/-- The `getParameters` requests the library issues for a by-name entry
list: one per batch, each requesting decryption.  (For an empty entry list
the source returns early; no request is issued, which coincides with
`chunkNames [] = []`.) -/
def getParametersRequests (dataList : List ByNameEntryData) :
    List GetParametersRequest :=
  (chunkNames (dataList.map (fun d => d.name))).map
    (fun batch => { Names := batch, WithDecryption := true })

/-- The aggregation loop of `getParameters`: concatenate every batch's
returned parameters, and every batch's invalid-parameter names. -/
def aggregateResults (results : List GetParametersResult) :
    List Parameter × List String :=
  results.foldl
    (fun acc r =>
      (acc.1 ++ r.Parameters.getD [], acc.2 ++ r.InvalidParameters.getD []))
    ([], [])

/-- `getParameters` (the batched name fetcher): issue all batches, await
them all, aggregate, and fail with `InvalidParametersError` when any batch
reported an invalid name. -/
def getParameters (ssm : SSMClient) (dataList : List ByNameEntryData) :
    Except JsError (List Parameter) :=
  let results := (getParametersRequests dataList).map ssm.getParameters
  let aggregated := aggregateResults results
  if aggregated.2 ≠ [] then .error (.invalidParametersError aggregated.2)
  else .ok aggregated.1

/-! ## Paginated path fetcher -/

/-- JS truthiness of the `NextToken` field: an empty-string token is falsy
and stops pagination, exactly like an absent one. -/
def jsTokenOf : Option String → Option String
  | some t => if t = "" then none else some t
  | none => none

/-- The request `getParametersByPath` issues for a by-path entry and a
continuation token (decryption always requested). -/
def pathReq (data : ByPathEntryData) (nextToken : Option String) :
    GetParametersByPathRequest :=
  { Path := data.path, Recursive := data.recursive,
    WithDecryption := true, NextToken := nextToken }

/-- `getParametersByPath` together with the list of requests it issues.
The source recurses as long as the response carries a (truthy) continuation
token; the recursion is driven here by fuel, and `none` marks fuel
exhaustion (the theorems show any fuel at least the page count suffices). -/
def getParametersByPathTrace (ssm : SSMClient) (data : ByPathEntryData) :
    Nat → Option String → Option (List GetParametersByPathRequest × List Parameter)
  | 0, _ => none
  | fuel + 1, nextToken =>
    let req := pathReq data nextToken
    let r := ssm.getParametersByPath req
    let ps := r.Parameters.getD []
    match jsTokenOf r.NextToken with
    | none => some ([req], ps)
    | some t =>
      (getParametersByPathTrace ssm data fuel (some t)).map
        (fun rest => (req :: rest.1, ps ++ rest.2))

/-- `getParametersByPath`: all pages' parameters for one by-path entry,
concatenated in page order. -/
def getParametersByPath (ssm : SSMClient) (data : ByPathEntryData)
    (fuel : Nat) (nextToken : Option String) : Option (List Parameter) :=
  (getParametersByPathTrace ssm data fuel nextToken).map (fun r => r.2)

/-- `getParametersByPaths`: fetch every by-path entry (all pages) and build
the path-to-parameters mapping keyed by the path string exactly as it
appears in the entry (the `reduce` into a plain object). -/
def getParametersByPaths (ssm : SSMClient) (dataList : List ByPathEntryData)
    (fuel : Nat) : Option (List (String × List Parameter)) :=
  if dataList.isEmpty then some []
  else
    (dataList.mapM
        (fun data =>
          (getParametersByPath ssm data fuel none).map
            (fun parameters => (data.path, parameters)))).map
      (fun results =>
        results.foldl (fun acc kv => jsAssign acc kv.1 kv.2) [])

/-- The requests issued across all by-path entries (in entry order; the
source dispatches the paths concurrently and joins them, so the set of
requests, not their interleaving, is meaningful). -/
def getParametersByPathsRequests (ssm : SSMClient)
    (dataList : List ByPathEntryData) (fuel : Nat) :
    List GetParametersByPathRequest :=
  (dataList.map
      (fun data =>
        ((getParametersByPathTrace ssm data fuel none).map
            (fun r => r.1)).getD [])).flatten

/-- The token chain and pages the service produces for one by-path entry,
starting from a given continuation token: `PathDrains ssm data tok toks
pages` holds when the first call uses token `tok`, each later call uses
exactly the (truthy) token of the previous response, `toks` lists the
tokens of all calls in order, `pages` their parameter lists, and the final
response carries no (truthy) token.  This is the claim's hypothesis that
the service eventually returns a response without a token. -/
inductive PathDrains (ssm : SSMClient) (data : ByPathEntryData) :
    Option String → List (Option String) → List (List Parameter) → Prop where
  | last (tok : Option String)
      (h : jsTokenOf (ssm.getParametersByPath (pathReq data tok)).NextToken = none) :
      PathDrains ssm data tok [tok]
        [(ssm.getParametersByPath (pathReq data tok)).Parameters.getD []]
  | more (tok : Option String) (t : String) (toks : List (Option String))
      (pages : List (List Parameter))
      (h : jsTokenOf (ssm.getParametersByPath (pathReq data tok)).NextToken = some t)
      (rest : PathDrains ssm data (some t) toks pages) :
      PathDrains ssm data tok (tok :: toks)
        ((ssm.getParametersByPath (pathReq data tok)).Parameters.getD [] :: pages)

/-! ## Value conversion and by-name lookup -/

/-- `getParameterValue`: `StringList`-typed parameters become the ordered
list obtained by splitting the value on commas; every other type yields the
raw string; an absent (or empty: `Value || ""`) value counts as `""`. -/
def getParameterValue (p : Parameter) : JsVal :=
  let v := p.Value.getD ""
  if p.«Type» = some "StringList" then .vArr ((jsSplit v ',').map .vStr)
  else .vStr v

/-- Rendering of an optional string inside a JS template literal:
`undefined` prints as `"undefined"`. -/
def jsTemplateStr : Option String → String
  | some s => s
  | none => "undefined"

/-- `findValue`: locate the parameter whose `Name` concatenated with its
`Selector` (empty when absent — `Selector || ""`) equals the requested
name, and convert it; when none matches, throw the "Unexpected error". -/
def findValue (params : List Parameter) (name : String) : Except JsError JsVal :=
  match params.find?
      (fun p => name = jsTemplateStr p.Name ++ p.Selector.getD "") with
  | none =>
    .error (.error ("Unexpected error: parameter " ++ name ++ " not found"))
  | some p => .ok (getParameterValue p)

/-! ## By-path tree reconstruction (`findValuesByPath`) -/

/-- The source's `ensureNestedObject` returns an alias into `o` and the
caller then assigns `item[name] = v` through it; here the ensure-and-assign
is fused into one functional update.  `!o[key]` uses JS truthiness, so a
falsy existing value (e.g. `""`) is overwritten with a fresh `{}`; a truthy
non-object existing value is descended into by the source, where property
writes through a primitive reference are silent no-ops (sloppy mode) — such
a write leaves `o` unchanged here.  (Named properties on arrays are outside
this JSON-like value model.) -/
def ensureAssign (o : List (String × JsVal)) (nestedKeys : List String)
    (name : String) (v : JsVal) : List (String × JsVal) :=
  match nestedKeys with
  | [] => jsAssign o name v
  | key :: rest =>
    match jsLookup o key with
    | some c =>
      if jsTruthy c then
        match c with
        | .vObj m => jsAssign o key (.vObj (ensureAssign m rest name v))
        | _ => o
      else jsAssign o key (.vObj (ensureAssign [] rest name v))
    | none => jsAssign o key (.vObj (ensureAssign [] rest name v))

/-- `path.length + (path.endsWith("/") ? 0 : 1)` — the local `pathLenth`
(sic) of the source's reduce callback; the only way the requested path
enters the per-parameter computation. -/
def pathLenth (path : String) : Int :=
  (path.length : Int) + (if jsEndsWithSlash path then 0 else 1)

/-- The body of the `reduce` in `findValuesByPath`, for one returned
parameter: skipped when `p.Name` is absent (or `""`, which is falsy);
otherwise split the name at its last `/` into a leaf name, strip the
requested path prefix, and either assign the converted value directly into
the accumulator or inside the ensured chain of nested objects. -/
def findValuesByPathStep (path : String) (m : List (String × JsVal))
    (p : Parameter) : List (String × JsVal) :=
  match p.Name with
  | none => m
  | some nm =>
    if nm = "" then m
    else
      let i := jsLastIndexOf nm '/'
      let name := jsSubstrFrom nm (i + 1)
      let nestedKeys := jsSplit (jsSubstring nm (pathLenth path) i) '/'
      if i > pathLenth path then
        ensureAssign m nestedKeys name (getParameterValue p)
      else jsAssign m name (getParameterValue p)

/-- `findValuesByPath`: fold the path's full parameter list into a nested
object.  Indexing `paramsByPath[path]` with a path that is not a key of the
mapping yields `undefined` and the `.reduce` call throws a `TypeError`;
within `inject` the mapping is built from these same paths, so the error
case is unreachable there. -/
def findValuesByPath (paramsByPath : List (String × List Parameter))
    (path : String) : Except JsError JsVal :=
  match jsLookup paramsByPath path with
  | none =>
    .error (.typeError "Cannot read properties of undefined (reading reduce)")
  | some ps => .ok (.vObj (ps.foldl (findValuesByPathStep path) []))

/-! ## Item parser -/

/-- What a parser emits through the `ParserAction` capability: the target
key plus either a by-name or a by-path reference. -/
inductive EntryEvent where
  | byNameEvent (key name : String)
  | byPathEvent (key path : String) (recursive : Option JsVal)
deriving Repr

/-- An `ItemParser` inspects one key/value pair and emits entry events (or
throws). -/
def ItemParser : Type :=
  String → JsVal → Except JsError (List EntryEvent)

/-- Property read `v.field` on an arbitrary runtime value: reading a
property of `null` throws a `TypeError`; primitives and arrays (which hold
no named properties in this model) yield `undefined`. -/
def jsGetField (v : JsVal) (field : String) : Except JsError (Option JsVal) :=
  match v with
  | .vNull =>
    .error (.typeError ("Cannot read properties of null (reading " ++ field ++ ")"))
  | .vObj m => .ok (jsLookup m field)
  | _ => .ok none

/-- The body of `defaultItemParser` after the key has been split: the
source destructures `const [_key, ssm, by] = key.split(":")`, so only the
first three fragments take part (`by_` models the source's `by`).
Rejection (`ssm !== "ssm" || ![undefined, "name", "path"].includes(by)`)
silently produces no entry.  The name is taken from a string `value.name`
field of an object value (reading the field of `null` throws) or from a
string value itself; `&& name` makes an empty-string name falsy and
skipped; likewise for the path.  `value.recursive` is passed through
unchecked. -/
def defaultItemParserCore (_key : String) (ssm by_ : Option String)
    (value : JsVal) : Except JsError (List EntryEvent) := do
  if ¬ (ssm = some "ssm" ∧
        (by_ = none ∨ by_ = some "name" ∨ by_ = some "path")) then
    return []
  let name : Option String ←
    if typeofObject value then do
      let f ← jsGetField value "name"
      pure (match f with | some (.vStr s) => some s | _ => none)
    else
      pure (match value with | .vStr s => some s | _ => none)
  let tryPath : Except JsError (List EntryEvent) := do
    let path : Option String ←
      if typeofObject value then do
        let f ← jsGetField value "path"
        pure (match f with | some (.vStr s) => some s | _ => none)
      else
        pure (match value with | .vStr s => some s | _ => none)
    match path with
    | some pth =>
      if (by_ = none ∨ by_ = some "path") ∧ pth ≠ "" then do
        let recursive ←
          if typeofObject value then jsGetField value "recursive"
          else pure none
        pure [.byPathEvent _key pth recursive]
      else pure []
    | none => pure []
  match name with
  | some n =>
    if (by_ = none ∨ by_ = some "name") ∧ n ≠ "" then
      pure [.byNameEvent _key n]
    else tryPath
  | none => tryPath

/-- `defaultItemParser`: split the key on `:` and hand the first three
fragments to the core. -/
def defaultItemParser : ItemParser := fun key value =>
  let parts := jsSplit key ':'
  defaultItemParserCore (parts.headD "") parts[1]? parts[2]? value

/-! ## Entry discovery (`parseItem`, `findEntries`) -/

/-- `Entry.data`: the closed sum of the two reference kinds (the source
discriminates with `"name" in data` / `"path" in data`). -/
inductive EntryData where
  | byName (data : ByNameEntryData)
  | byPath (data : ByPathEntryData)
deriving Repr

/-- A discovered reference entry.  The source stores a mutable reference to
the parent object; here `parentPath` is the chain of keys from the root to
that parent (an explicit slot handle), `initKey` the key the parser was
invoked on (the slot to delete), and `key` the target key to assign. -/
structure Entry where
  parentPath : List String
  key : String
  initKey : String
  data : EntryData
deriving Repr

/-- `parseItem`: run the parser on one key/value pair, materialising the
emitted events as entries recording the parent slot. -/
def parseItem (parser : ItemParser) (parentPath : List String)
    (initKey : String) (value : JsVal) : Except JsError (List Entry) :=
  (parser initKey value).map
    (List.map (fun ev =>
      match ev with
      | .byNameEvent k n => ⟨parentPath, k, initKey, .byName ⟨n⟩⟩
      | .byPathEvent k p r => ⟨parentPath, k, initKey, .byPath ⟨p, r⟩⟩))

mutual

/-- `findEntries`: walk the value's own keys in insertion order, run the
parser at each key, keep its entries, and recurse into values of `typeof
"object"` that produced none.  `Object.keys(null)` throws a `TypeError`;
arrays enumerate their indices as string keys.  (`Object.keys` of a
primitive is reachable only when `inject` is called with a primitive root;
a string root's index keys are not modelled — no claim touches that case.) -/
def findEntries (parser : ItemParser) (parentPath : List String) :
    JsVal → Except JsError (List Entry)
  | .vNull => .error (.typeError "Cannot convert undefined or null to object")
  | .vObj fields => findEntriesFields parser parentPath fields
  | .vArr elems => findEntriesElems parser parentPath 0 elems
  | _ => .ok []

/-- The loop of `findEntries` over an object's key/value pairs. -/
def findEntriesFields (parser : ItemParser) (parentPath : List String) :
    List (String × JsVal) → Except JsError (List Entry)
  | [] => .ok []
  | (k, v) :: rest => do
    let es ← parseItem parser parentPath k v
    if es.isEmpty then
      if typeofObject v then do
        let sub ← findEntries parser (parentPath ++ [k]) v
        let tailEs ← findEntriesFields parser parentPath rest
        pure (sub ++ tailEs)
      else findEntriesFields parser parentPath rest
    else do
      let tailEs ← findEntriesFields parser parentPath rest
      pure (es ++ tailEs)

/-- The loop of `findEntries` over an array's elements (keys are the
decimal index strings). -/
def findEntriesElems (parser : ItemParser) (parentPath : List String)
    (i : Nat) : List JsVal → Except JsError (List Entry)
  | [] => .ok []
  | v :: rest => do
    let es ← parseItem parser parentPath (toString i) v
    if es.isEmpty then
      if typeofObject v then do
        let sub ← findEntries parser (parentPath ++ [toString i]) v
        let tailEs ← findEntriesElems parser parentPath (i + 1) rest
        pure (sub ++ tailEs)
      else findEntriesElems parser parentPath (i + 1) rest
    else do
      let tailEs ← findEntriesElems parser parentPath (i + 1) rest
      pure (es ++ tailEs)

end

/-! ## Tree reconstruction (`expandEntries`) and the orchestrator -/

/-- Apply a functional update to the object found at a key path from the
root (the pure counterpart of mutating through the `parent` reference an
entry holds).  A path that no longer leads to an object leaves the tree
unchanged: in the source this is a mutation of a detached object, invisible
in the resulting tree.  (Index slots of arrays are not modelled as entry
parents; the default parser never emits an entry for an array index key.) -/
def modifyAt (root : JsVal) (path : List String)
    (f : List (String × JsVal) → List (String × JsVal)) : JsVal :=
  match root, path with
  | .vObj m, [] => .vObj (f m)
  | .vObj m, k :: rest =>
    .vObj (m.map (fun kv =>
      if kv.1 = k then (kv.1, modifyAt kv.2 rest f) else kv))
  | .vArr l, k :: rest =>
    .vArr (l.enum.map (fun iv =>
      if toString iv.1 = k then modifyAt iv.2 rest f else iv.2))
  | other, _ => other

/-- The value an entry resolves to: by-name entries through `findValue` on
the aggregated parameter list, by-path entries through `findValuesByPath`
on the path mapping. -/
def resolveEntryValue (params : List Parameter)
    (paramsByPath : List (String × List Parameter)) :
    EntryData → Except JsError JsVal
  | .byName d => findValue params d.name
  | .byPath d => findValuesByPath paramsByPath d.path

/-- `expandEntries`: apply each entry in order — delete the original key,
then assign the resolved value at the target key.  The loop body runs
synchronously; a thrown error stops the loop with the mutations made so far
in place, so the result is the tree state reached together with the
outcome. -/
def expandEntries (params : List Parameter)
    (paramsByPath : List (String × List Parameter)) :
    List Entry → JsVal → JsVal × Except JsError Unit
  | [], root => (root, .ok ())
  | e :: rest, root =>
    let root1 := modifyAt root e.parentPath (fun o => jsDelete o e.initKey)
    match resolveEntryValue params paramsByPath e.data with
    | .error err => (root1, .error err)
    | .ok v =>
      expandEntries params paramsByPath rest
        (modifyAt root1 e.parentPath (fun o => jsAssign o e.key v))

mutual

/-- `JSON.parse(JSON.stringify(obj))` on JSON-representable plain data:
a structural copy.  In this pure value model the copy is the same value
(proved below); the copy-versus-alias distinction is carried by which tree
`inject` works on and which it reports as the caller's input. -/
def deepCopy : JsVal → JsVal
  | .vNull => .vNull
  | .vBool b => .vBool b
  | .vNum n => .vNum n
  | .vStr s => .vStr s
  | .vArr l => .vArr (deepCopyList l)
  | .vObj m => .vObj (deepCopyFields m)

/-- Structural copy of an array's elements. -/
def deepCopyList : List JsVal → List JsVal
  | [] => []
  | v :: rest => deepCopy v :: deepCopyList rest

/-- Structural copy of an object's fields. -/
def deepCopyFields : List (String × JsVal) → List (String × JsVal)
  | [] => []
  | (k, v) :: rest => (k, deepCopy v) :: deepCopyFields rest

end

/-- `Options` (`mutate`, `itemParser`). -/
structure Options where
  mutate : Bool
  itemParser : ItemParser

/-- `defaultOptions`: mutate in place, default parser. -/
def defaultOptions : Options :=
  { mutate := true, itemParser := defaultItemParser }

/-- The by-name entry data of the discovered entries, in order
(`entries.filter(instanceOfByNameData)`). -/
def byNameDataOf (entries : List Entry) : List ByNameEntryData :=
  entries.filterMap (fun e =>
    match e.data with
    | .byName d => some d
    | .byPath _ => none)

/-- The by-path entry data of the discovered entries, in order. -/
def byPathDataOf (entries : List Entry) : List ByPathEntryData :=
  entries.filterMap (fun e =>
    match e.data with
    | .byName _ => none
    | .byPath d => some d)

/-- `inject`.  Returns the promise outcome (resolution value or rejection)
together with the tree the caller's own `obj` reference sees afterwards.
Control flow of the source:
* work on `obj` itself when `mutate`, else on a JSON round-trip copy;
* `findEntries`; a throw rejects before any mutation;
* `await getParameters(...)` — a rejection propagates, the tree untouched
  and `getParametersByPaths` never invoked (the two fetches are sequential
  `await`s, lines 351–352 of the source);
* `await getParametersByPaths(...)` (fuel exhaustion is a model artifact);
* `expandEntries(entries, params, paramsByPath)` is **not awaited** (line
  354): its rejection, if any, is discarded, and `inject` resolves with the
  tree as mutated up to the failure. -/
def inject (ssm : SSMClient) (obj : JsVal) (opts : Options) (fuel : Nat) :
    Except JsError JsVal × JsVal :=
  let work := if opts.mutate then obj else deepCopy obj
  match findEntries opts.itemParser [] work with
  | .error e => (.error e, obj)
  | .ok entries =>
    match getParameters ssm (byNameDataOf entries) with
    | .error e => (.error e, obj)
    | .ok params =>
      match getParametersByPaths ssm (byPathDataOf entries) fuel with
      | none => (.error (.error "model: pagination fuel exhausted"), obj)
      | some paramsByPath =>
        let expanded := expandEntries params paramsByPath entries work
        (.ok expanded.1, if opts.mutate then expanded.1 else obj)

/-- One remote call, as observed at the client interface. -/
inductive SSMCall where
  | nameCall (req : GetParametersRequest)
  | pathCall (req : GetParametersByPathRequest)
deriving Repr

/-- The remote calls `inject` gives rise to, in dispatch order.  Because
the source `await`s the batched name fetch before invoking the path
fetcher, a name-fetch rejection means no path request is ever dispatched. -/
def injectCalls (ssm : SSMClient) (obj : JsVal) (opts : Options)
    (fuel : Nat) : List SSMCall :=
  let work := if opts.mutate then obj else deepCopy obj
  match findEntries opts.itemParser [] work with
  | .error _ => []
  | .ok entries =>
    let nameCalls :=
      (getParametersRequests (byNameDataOf entries)).map .nameCall
    match getParameters ssm (byNameDataOf entries) with
    | .error _ => nameCalls
    | .ok _ =>
      nameCalls ++
        (getParametersByPathsRequests ssm (byPathDataOf entries) fuel).map
          .pathCall

/-! ## The specification's conversion rule, for comparison -/

/-- The type-based conversion exactly as the specification words it (for
comparison with the source's `getParameterValue`): a `StringList`-typed
parameter resolves to the ordered sequence obtained by splitting its value
string on commas, and every other type resolves to the raw value string,
with the empty string when the value is absent. -/
def specTypeBasedConversion (p : Parameter) : JsVal :=
  match p.«Type», p.Value with
  | some "StringList", some v => .vArr ((jsSplit v ',').map .vStr)
  | some "StringList", none => .vArr ((jsSplit "" ',').map .vStr)
  | _, some v => .vStr v
  | _, none => .vStr ""

/-! ## Concrete fixtures for witnesses and counterexamples -/

/-- A client whose responses are all empty. -/
def trivialClient : SSMClient where
  getParameters := fun _ => {}
  getParametersByPath := fun _ => {}

/-- A client that reports every requested name invalid. -/
def svcAllInvalid : SSMClient where
  getParameters := fun req =>
    { Parameters := some [], InvalidParameters := some req.Names }
  getParametersByPath := fun _ => {}

/-- A stored parameter named `/x`, no selector. -/
def paramX : Parameter :=
  { Name := some "/x", «Type» := some "String", Value := some "vx" }

/-- A stored parameter named `/y` that comes back with a version selector
`:1` that was not part of the request — so the name-with-selector lookup
of `findValue` cannot locate it although the fetch reported success. -/
def paramYSel : Parameter :=
  { Name := some "/y", «Type» := some "String", Value := some "vy",
    Selector := some ":1" }

/-- A client whose successful by-name response cannot be matched back by
`findValue` for the name `/y` (see `paramYSel`). -/
def svcSelectorMismatch : SSMClient where
  getParameters := fun _ =>
    { Parameters := some [paramX, paramYSel], InvalidParameters := some [] }
  getParametersByPath := fun _ => {}

/-- First page of the two-page fixture. -/
def paramPage1 : Parameter :=
  { Name := some "/nested/a", «Type» := some "String", Value := some "va" }

/-- Second page of the two-page fixture. -/
def paramPage2 : Parameter :=
  { Name := some "/nested/deep/b", «Type» := some "String", Value := some "vb" }

/-- A client whose by-path responses form two pages chained by the
continuation token `tok1`. -/
def svcTwoPages : SSMClient where
  getParameters := fun _ => {}
  getParametersByPath := fun req =>
    match req.NextToken with
    | none => { Parameters := some [paramPage1], NextToken := some "tok1" }
    | some t =>
      if t = "tok1" then { Parameters := some [paramPage2], NextToken := none }
      else {}

/-- A parameter under `/a/`, two levels deep. -/
def paramSlash : Parameter :=
  { Name := some "/a/b/c", «Type» := some "String", Value := some "v" }

/-- A `StringList` parameter. -/
def paramList : Parameter :=
  { Name := some "/list", «Type» := some "StringList", Value := some "a,b,c" }

example : jsSplit "a:ssm:name" ':' = ["a", "ssm", "name"] := by decide
example : jsSplit "" ':' = [""] := by decide
example : jsSplit ":" ':' = ["", ""] := by decide
example : jsLastIndexOf "/a/b/c" '/' = 4 := by decide
example : jsSubstrFrom "/a/b/c" 5 = "c" := by decide
example : jsSubstring "/a/b/c" 3 4 = "b" := by decide
example : jsSubstring "/a/b/c" 3 (-1) = "/a/" := by decide
example : jsEndsWithSlash "/a/" = true := by decide

example :
    defaultItemParser "foo:ssm:name" (.vStr "/letter") =
      .ok [.byNameEvent "foo" "/letter"] := rfl
example :
    defaultItemParser "foo:ssm" (.vObj [("name", .vStr "/letter")]) =
      .ok [.byNameEvent "foo" "/letter"] := rfl
example :
    defaultItemParser "foo:ssm:path" (.vStr "/") =
      .ok [.byPathEvent "foo" "/" none] := rfl
example :
    defaultItemParser "foo:ssm"
        (.vObj [("path", .vStr "/"), ("recursive", .vBool true)]) =
      .ok [.byPathEvent "foo" "/" (some (.vBool true))] := rfl
example : defaultItemParser "foo" (.vStr "/letter") = .ok [] := rfl
example : defaultItemParser "foo:ssm:other" (.vStr "/letter") = .ok [] := rfl
example :
    defaultItemParser "foo:ssm:name" (.vObj [("path", .vStr "/p")]) =
      .ok [] := rfl
example :
    (defaultItemParser "a:ssm" .vNull).isOk = false := rfl

/-! ## Batching lemmas -/

theorem chunkNamesGo_flatten :
    ∀ (fuel : Nat) (names : List String), names.length ≤ fuel →
      (chunkNamesGo fuel names).flatten = names := by
  intro fuel
  induction fuel with
  | zero =>
    intro names h
    rw [List.length_eq_zero.mp (Nat.le_zero.mp h)]
    rfl
  | succ fuel ih =>
    intro names h
    cases names with
    | nil => rfl
    | cons n rest =>
      rw [chunkNamesGo, List.flatten_cons, ih]
      · exact List.take_append_drop _ _
      · simp only [List.length_drop, List.length_cons, GET_PARAMETERS_LIMIT] at h ⊢
        omega

theorem chunkNames_flatten (names : List String) :
    (chunkNames names).flatten = names :=
  chunkNamesGo_flatten names.length names (Nat.le_refl _)

theorem chunkNamesGo_length :
    ∀ (fuel : Nat) (names : List String), names.length ≤ fuel →
      (chunkNamesGo fuel names).length = (names.length + 9) / 10 := by
  intro fuel
  induction fuel with
  | zero =>
    intro names h
    rw [List.length_eq_zero.mp (Nat.le_zero.mp h)]
    rfl
  | succ fuel ih =>
    intro names h
    cases names with
    | nil => rfl
    | cons n rest =>
      rw [chunkNamesGo, List.length_cons, ih]
      · simp only [List.length_drop, List.length_cons, GET_PARAMETERS_LIMIT]
        omega
      · simp only [List.length_drop, List.length_cons, GET_PARAMETERS_LIMIT] at h ⊢
        omega

theorem chunkNames_length (names : List String) :
    (chunkNames names).length = (names.length + 9) / 10 :=
  chunkNamesGo_length names.length names (Nat.le_refl _)

theorem chunkNamesGo_mem :
    ∀ (fuel : Nat) (names : List String), names.length ≤ fuel →
      ∀ b ∈ chunkNamesGo fuel names, b.length ≤ 10 ∧ b ≠ [] := by
  intro fuel
  induction fuel with
  | zero =>
    intro names h b hb
    rw [List.length_eq_zero.mp (Nat.le_zero.mp h)] at hb
    exact absurd hb (List.not_mem_nil b)
  | succ fuel ih =>
    intro names h b hb
    cases names with
    | nil => exact absurd hb (List.not_mem_nil b)
    | cons n rest =>
      rw [chunkNamesGo] at hb
      rcases List.mem_cons.mp hb with rfl | h'
      · refine ⟨?_, ?_⟩
        · simp [List.length_take, GET_PARAMETERS_LIMIT]
        · simp [GET_PARAMETERS_LIMIT]
      · refine ih _ ?_ b h'
        simp only [List.length_drop, List.length_cons, GET_PARAMETERS_LIMIT] at h ⊢
        omega

theorem chunkNames_mem (names : List String) (b : List String)
    (hb : b ∈ chunkNames names) : b.length ≤ 10 ∧ b ≠ [] :=
  chunkNamesGo_mem names.length names (Nat.le_refl _) b hb

/-! ## Aggregation lemma -/

theorem aggregateResults_eq (results : List GetParametersResult) :
    aggregateResults results =
      ((results.map (fun r => r.Parameters.getD [])).flatten,
       (results.map (fun r => r.InvalidParameters.getD [])).flatten) := by
  have general :
      ∀ (rs : List GetParametersResult) (a : List Parameter) (b : List String),
        rs.foldl
            (fun acc r =>
              (acc.1 ++ r.Parameters.getD [],
               acc.2 ++ r.InvalidParameters.getD []))
            (a, b) =
          (a ++ (rs.map (fun r => r.Parameters.getD [])).flatten,
           b ++ (rs.map (fun r => r.InvalidParameters.getD [])).flatten) := by
    intro rs
    induction rs with
    | nil => intro a b; simp
    | cons r rest ih =>
      intro a b
      simp only [List.foldl_cons, List.map_cons, List.flatten_cons, ih,
        List.append_assoc]
  simpa [aggregateResults] using general results [] []

/-! ## Claim C5 -/

/-- Claim C5: for every list of by-name entries, the names are partitioned
in order into consecutive batches of at most 10 (their concatenation is the
name list), exactly `⌈n/10⌉` remote get-parameters calls are made, each
with at most 10 (and at least one) names and with decryption requested; 100
entries give exactly 10 calls, and an empty entry list produces zero calls
and an empty result. -/
theorem getParameters_batching (ssm : SSMClient)
    (dataList : List ByNameEntryData) :
    ((getParametersRequests dataList).map (fun r => r.Names)).flatten =
        dataList.map (fun d => d.name) ∧
      (getParametersRequests dataList).length = (dataList.length + 9) / 10 ∧
      (∀ r ∈ getParametersRequests dataList,
        r.Names.length ≤ 10 ∧ r.Names ≠ [] ∧ r.WithDecryption = true) ∧
      (dataList.length = 100 → (getParametersRequests dataList).length = 10) ∧
      (dataList = [] →
        getParametersRequests dataList = [] ∧ getParameters ssm dataList = .ok []) := by
  refine ⟨?_, ?_, ?_, ?_, ?_⟩
  · simp [getParametersRequests, List.map_map, Function.comp_def,
      chunkNames_flatten]
  · simp [getParametersRequests, chunkNames_length]
  · intro r hr
    simp only [getParametersRequests, List.mem_map] at hr
    obtain ⟨b, hb, rfl⟩ := hr
    have := chunkNames_mem _ b hb
    exact ⟨this.1, this.2, rfl⟩
  · intro h100
    simp [getParametersRequests, chunkNames_length, h100]
  · intro hnil
    subst hnil
    exact ⟨rfl, rfl⟩

/-- Witness for C5 at a concrete 12-entry list: two batches, the first of
ten names and the second of two, all with decryption; and the empty list
gives no calls. -/
theorem getParameters_batching_witness :
    (getParametersRequests
          [⟨"/n0"⟩, ⟨"/n1"⟩, ⟨"/n2"⟩, ⟨"/n3"⟩, ⟨"/n4"⟩, ⟨"/n5"⟩, ⟨"/n6"⟩,
            ⟨"/n7"⟩, ⟨"/n8"⟩, ⟨"/n9"⟩, ⟨"/n10"⟩, ⟨"/n11"⟩]).length = 2 ∧
      (∀ r ∈ getParametersRequests
          [⟨"/n0"⟩, ⟨"/n1"⟩, ⟨"/n2"⟩, ⟨"/n3"⟩, ⟨"/n4"⟩, ⟨"/n5"⟩, ⟨"/n6"⟩,
            ⟨"/n7"⟩, ⟨"/n8"⟩, ⟨"/n9"⟩, ⟨"/n10"⟩, ⟨"/n11"⟩],
        r.Names.length ≤ 10 ∧ r.Names ≠ [] ∧ r.WithDecryption = true) ∧
      getParametersRequests ([] : List ByNameEntryData) = [] ∧
      getParameters trivialClient ([] : List ByNameEntryData) = .ok [] := by
  have h := getParameters_batching trivialClient
      [⟨"/n0"⟩, ⟨"/n1"⟩, ⟨"/n2"⟩, ⟨"/n3"⟩, ⟨"/n4"⟩, ⟨"/n5"⟩, ⟨"/n6"⟩,
        ⟨"/n7"⟩, ⟨"/n8"⟩, ⟨"/n9"⟩, ⟨"/n10"⟩, ⟨"/n11"⟩]
  have hnil := (getParameters_batching trivialClient []).2.2.2.2 rfl
  exact ⟨by rw [h.2.1]; rfl, h.2.2.1, hnil.1, hnil.2⟩

/-! ## Claim C2 -/

/-- Claim C2: all name batches are issued and aggregated (none is skipped
on an earlier batch's failure — the invalid set is the concatenation over
all issued batches); when the union of invalid names across all batches is
non-empty, `getParameters` fails with a single `InvalidParametersError`
carrying exactly that concatenation, and `inject` rejects with it leaving
the input tree unmodified; when it is empty, `getParameters` returns the
concatenation of all batches' returned parameters. -/
theorem getParameters_invalid_aggregation (ssm : SSMClient)
    (dataList : List ByNameEntryData) :
    ((((getParametersRequests dataList).map ssm.getParameters).map
            (fun r => r.InvalidParameters.getD [])).flatten ≠ [] →
        getParameters ssm dataList =
          .error (.invalidParametersError
            ((((getParametersRequests dataList).map ssm.getParameters).map
                (fun r => r.InvalidParameters.getD [])).flatten))) ∧
      ((((getParametersRequests dataList).map ssm.getParameters).map
            (fun r => r.InvalidParameters.getD [])).flatten = [] →
        getParameters ssm dataList =
          .ok ((((getParametersRequests dataList).map ssm.getParameters).map
            (fun r => r.Parameters.getD [])).flatten)) ∧
      (∀ (obj : JsVal) (opts : Options) (fuel : Nat) (entries : List Entry)
          (err : JsError),
        findEntries opts.itemParser []
            (if opts.mutate then obj else deepCopy obj) = .ok entries →
        getParameters ssm (byNameDataOf entries) = .error err →
        inject ssm obj opts fuel = (.error err, obj)) := by
  refine ⟨?_, ?_, ?_⟩
  · intro hne
    simp only [getParameters, aggregateResults_eq]
    rw [if_pos hne]
  · intro hnil
    simp only [getParameters, aggregateResults_eq]
    rw [if_neg (fun hc => hc hnil)]
  · intro obj opts fuel entries err hfind hget
    simp only [inject, hfind, hget]

/-- Witness for C2: a two-batch request (12 names) against the
all-invalid client aggregates every batch's invalid names into one
`InvalidParametersError`; `inject` on an object holding one by-name
reference rejects with the error and leaves the tree unmodified. -/
theorem getParameters_invalid_aggregation_witness :
    getParameters svcAllInvalid
        [⟨"/n0"⟩, ⟨"/n1"⟩, ⟨"/n2"⟩, ⟨"/n3"⟩, ⟨"/n4"⟩, ⟨"/n5"⟩, ⟨"/n6"⟩,
          ⟨"/n7"⟩, ⟨"/n8"⟩, ⟨"/n9"⟩, ⟨"/n10"⟩, ⟨"/n11"⟩] =
      .error (.invalidParametersError
        ["/n0", "/n1", "/n2", "/n3", "/n4", "/n5", "/n6", "/n7", "/n8",
          "/n9", "/n10", "/n11"]) ∧
    inject svcAllInvalid (.vObj [("foo:ssm:name", .vStr "/bar")])
        defaultOptions 1 =
      (.error (.invalidParametersError ["/bar"]),
        .vObj [("foo:ssm:name", .vStr "/bar")]) := by
  constructor
  · exact (getParameters_invalid_aggregation svcAllInvalid
      [⟨"/n0"⟩, ⟨"/n1"⟩, ⟨"/n2"⟩, ⟨"/n3"⟩, ⟨"/n4"⟩, ⟨"/n5"⟩, ⟨"/n6"⟩,
        ⟨"/n7"⟩, ⟨"/n8"⟩, ⟨"/n9"⟩, ⟨"/n10"⟩, ⟨"/n11"⟩]).1 (by decide)
  · exact (getParameters_invalid_aggregation svcAllInvalid
      [⟨"/bar"⟩]).2.2 (.vObj [("foo:ssm:name", .vStr "/bar")])
      defaultOptions 1
      [⟨[], "foo", "foo:ssm:name", .byName ⟨"/bar"⟩⟩]
      (.invalidParametersError ["/bar"]) rfl rfl

/-! ## Claim C1 -/

/-- Claim C1 (a bug in the source): when a by-name entry's requested
name-with-selector matches no parameter in the aggregated fetch result,
`findValue` does raise the fatal "Unexpected error" and `expandEntries`
rejects — but the source never awaits the `expandEntries` promise (line 354
of `src/lib/index.ts`), so the rejection is discarded: `inject` resolves
successfully with a partially-applied object (here `foo` is applied, the
`bar:ssm:name` slot has been deleted and nothing was assigned in its
place), contrary to the claim that the error propagates to the caller. -/
theorem inject_swallows_reconstruction_failure :
    findValue [paramX, paramYSel] "/y" =
        .error (.error "Unexpected error: parameter /y not found") ∧
      (expandEntries [paramX, paramYSel] []
          [⟨[], "foo", "foo:ssm:name", .byName ⟨"/x"⟩⟩,
            ⟨[], "bar", "bar:ssm:name", .byName ⟨"/y"⟩⟩]
          (.vObj [("foo:ssm:name", .vStr "/x"),
            ("bar:ssm:name", .vStr "/y")])).2 =
        .error (.error "Unexpected error: parameter /y not found") ∧
      inject svcSelectorMismatch
          (.vObj [("foo:ssm:name", .vStr "/x"), ("bar:ssm:name", .vStr "/y")])
          defaultOptions 1 =
        (.ok (.vObj [("foo", .vStr "vx")]), .vObj [("foo", .vStr "vx")]) :=
  ⟨rfl, rfl, rfl⟩

/-! ## Claim C10 -/

/-- Claim C10: on an input holding `null` at a key, `inject` throws a
`TypeError` instead of leaving the slot untouched: the entry finder
recurses into every value of `typeof "object"` — `null` included — and
enumerating the keys of `null` throws; and under a matching key the
default parser reads `value.name` off the `null` value and throws. -/
theorem inject_throws_on_null_value :
    inject trivialClient (.vObj [("a", .vNull)]) defaultOptions 1 =
        (.error (.typeError "Cannot convert undefined or null to object"),
          .vObj [("a", .vNull)]) ∧
      findEntries defaultItemParser [] (.vObj [("a", .vNull)]) =
        .error (.typeError "Cannot convert undefined or null to object") ∧
      defaultItemParser "a:ssm" .vNull =
        .error (.typeError "Cannot read properties of null (reading name)") ∧
      inject trivialClient (.vObj [("b:ssm", .vNull)]) defaultOptions 1 =
        (.error (.typeError "Cannot read properties of null (reading name)"),
          .vObj [("b:ssm", .vNull)]) :=
  ⟨rfl, rfl, rfl, rfl⟩

/-! ## Claim C3 -/

/-- Counterexample to claim C3 as stated: the path fetch is not dispatched
without waiting for the name fetch.  On an input with one by-name and one
by-path entry, against a client that reports the name invalid, the whole
run dispatches only the single name request — no path request is ever
issued, although the claim's concurrent dispatch would have started it
before the name fetch completed. -/
theorem injectCalls_no_path_dispatch_on_name_failure :
    injectCalls svcAllInvalid
        (.vObj [("n:ssm:name", .vStr "/n"), ("p:ssm:path", .vStr "/pp")])
        defaultOptions 5 =
      [.nameCall { Names := ["/n"], WithDecryption := true }] ∧
    findEntries defaultItemParser []
        (.vObj [("n:ssm:name", .vStr "/n"), ("p:ssm:path", .vStr "/pp")]) =
      .ok [⟨[], "n", "n:ssm:name", .byName ⟨"/n"⟩⟩,
        ⟨[], "p", "p:ssm:path", .byPath ⟨"/pp", none⟩⟩] ∧
    (inject svcAllInvalid
        (.vObj [("n:ssm:name", .vStr "/n"), ("p:ssm:path", .vStr "/pp")])
        defaultOptions 5).1 =
      .error (.invalidParametersError ["/n"]) :=
  ⟨rfl, rfl, rfl⟩

/-- Claim C3 as amended: the orchestrator runs the two fetches
sequentially — it awaits the batched name fetch and only then dispatches
the paginated path fetch; if the name fetch fails, the operation fails
before any reconstruction with the input unmodified and the path fetch is
never dispatched (so there is no already-computed path outcome to
discard); on name-fetch success the path requests follow all name
requests. -/
theorem inject_sequential_fetches (ssm : SSMClient) (obj : JsVal)
    (opts : Options) (fuel : Nat) (entries : List Entry)
    (hf : findEntries opts.itemParser []
        (if opts.mutate then obj else deepCopy obj) = .ok entries) :
    (∀ err, getParameters ssm (byNameDataOf entries) = .error err →
        injectCalls ssm obj opts fuel =
            (getParametersRequests (byNameDataOf entries)).map .nameCall ∧
          inject ssm obj opts fuel = (.error err, obj)) ∧
      (∀ params, getParameters ssm (byNameDataOf entries) = .ok params →
        injectCalls ssm obj opts fuel =
          (getParametersRequests (byNameDataOf entries)).map .nameCall ++
            (getParametersByPathsRequests ssm (byPathDataOf entries)
                fuel).map .pathCall) := by
  constructor
  · intro err herr
    constructor
    · simp only [injectCalls, hf, herr]
    · simp only [inject, hf, herr]
  · intro params hok
    simp only [injectCalls, hf, hok]

/-- Witness for the amended C3 at the counterexample input: the dispatched
calls are exactly the single name request and `inject` rejects leaving the
input unchanged. -/
theorem inject_sequential_fetches_witness :
    injectCalls svcAllInvalid
        (.vObj [("n:ssm:name", .vStr "/n"), ("p:ssm:path", .vStr "/pp")])
        defaultOptions 5 =
      (getParametersRequests
          (byNameDataOf [⟨[], "n", "n:ssm:name", .byName ⟨"/n"⟩⟩,
            ⟨[], "p", "p:ssm:path", .byPath ⟨"/pp", none⟩⟩])).map .nameCall ∧
    inject svcAllInvalid
        (.vObj [("n:ssm:name", .vStr "/n"), ("p:ssm:path", .vStr "/pp")])
        defaultOptions 5 =
      (.error (.invalidParametersError ["/n"]),
        .vObj [("n:ssm:name", .vStr "/n"), ("p:ssm:path", .vStr "/pp")]) :=
  (inject_sequential_fetches svcAllInvalid
      (.vObj [("n:ssm:name", .vStr "/n"), ("p:ssm:path", .vStr "/pp")])
      defaultOptions 5
      [⟨[], "n", "n:ssm:name", .byName ⟨"/n"⟩⟩,
        ⟨[], "p", "p:ssm:path", .byPath ⟨"/pp", none⟩⟩]
      rfl).1 (.invalidParametersError ["/n"]) rfl

/-! ## Claim C4 -/

/-- Counterexample to claim C4 as stated: a key of four colon-delimited
segments can produce an entry.  `a:ssm:name:x` destructures to the three
fragments `a`, `ssm`, `name` — the fourth is ignored — so the parser emits
a by-name entry, where the claim requires no entry for any key of four or
more segments. -/
theorem defaultItemParser_four_segments_cex :
    defaultItemParser "a:ssm:name:x" (.vStr "/v") =
        .ok [.byNameEvent "a" "/v"] ∧
      (Except.ok [EntryEvent.byNameEvent "a" "/v"] ≠
        (.ok [] : Except JsError (List EntryEvent))) :=
  ⟨rfl, by simp⟩

/-- Claim C4 as amended: the default parser's key test looks only at the
first three colon-delimited fragments — the second must be exactly `ssm`
and the third, when present, exactly `name` or `path`; any key failing
that test produces no entry and no error, and fragments beyond the third
never affect the outcome (so keys with four or more segments behave as if
truncated to three). -/
theorem defaultItemParser_key_shape (key : String) (value : JsVal) :
    (¬ ((jsSplit key ':')[1]? = some "ssm" ∧
          ((jsSplit key ':')[2]? = none ∨ (jsSplit key ':')[2]? = some "name" ∨
            (jsSplit key ':')[2]? = some "path")) →
        defaultItemParser key value = .ok []) ∧
      (∀ key' : String,
        (jsSplit key' ':').headD "" = (jsSplit key ':').headD "" →
        (jsSplit key' ':')[1]? = (jsSplit key ':')[1]? →
        (jsSplit key' ':')[2]? = (jsSplit key ':')[2]? →
        defaultItemParser key' value = defaultItemParser key value) := by
  constructor
  · intro h
    simp only [defaultItemParser, defaultItemParserCore]
    rw [if_pos h]
    rfl
  · intro key' h0 h1 h2
    simp only [defaultItemParser]
    rw [h0, h1, h2]

/-- Witness for the amended C4: a key whose second fragment is not `ssm`
produces no entry, and two four-segment keys differing only beyond the
third fragment parse identically. -/
theorem defaultItemParser_key_shape_witness :
    defaultItemParser "x:y" (.vStr "/v") = .ok [] ∧
      defaultItemParser "a:ssm:name:junk" (.vStr "/v") =
        defaultItemParser "a:ssm:name:x" (.vStr "/v") :=
  ⟨(defaultItemParser_key_shape "x:y" (.vStr "/v")).1 (by decide),
    (defaultItemParser_key_shape "a:ssm:name:x" (.vStr "/v")).2
      "a:ssm:name:junk" (by decide) (by decide) (by decide)⟩

/-! ## Pagination lemmas -/

theorem pathDrains_trace (ssm : SSMClient) (data : ByPathEntryData)
    {tok : Option String} {toks : List (Option String)}
    {pages : List (List Parameter)}
    (h : PathDrains ssm data tok toks pages) :
    ∀ fuel, pages.length ≤ fuel →
      getParametersByPathTrace ssm data fuel tok =
        some (toks.map (pathReq data), pages.flatten) := by
  induction h with
  | last tok h =>
    intro fuel hf
    cases fuel with
    | zero => simp at hf
    | succ fuel => simp [getParametersByPathTrace, h]
  | more tok t toks pages h rest ih =>
    intro fuel hf
    cases fuel with
    | zero => simp at hf
    | succ fuel =>
      have hlen : pages.length ≤ fuel := by
        simp only [List.length_cons] at hf
        omega
      simp [getParametersByPathTrace, h, ih fuel hlen]

theorem mapM_option_eq_map {α β : Type} (f : α → Option β) (g : α → β) :
    ∀ l : List α, (∀ a ∈ l, f a = some (g a)) → l.mapM f = some (l.map g) := by
  intro l
  induction l with
  | nil => intro _; rfl
  | cons a rest ih =>
    intro h
    rw [List.mapM_cons, h a (List.mem_cons_self a rest),
      ih (fun b hb => h b (List.mem_cons_of_mem a hb))]
    rfl

theorem jsAssign_of_not_mem {α : Type} (o : List (String × α)) (k : String)
    (v : α) (h : ∀ kv ∈ o, kv.1 ≠ k) : jsAssign o k v = o ++ [(k, v)] := by
  have hany : o.any (fun kv => kv.1 = k) = false := by
    rw [List.any_eq_false]
    intro kv hkv
    simp [h kv hkv]
  simp [jsAssign, hany]

theorem foldl_jsAssign_eq {α : Type} :
    ∀ (l acc : List (String × α)),
      (l.map Prod.fst).Nodup →
      (∀ k, k ∈ acc.map Prod.fst → k ∉ l.map Prod.fst) →
      l.foldl (fun a kv => jsAssign a kv.1 kv.2) acc = acc ++ l := by
  intro l
  induction l with
  | nil => intro acc _ _; simp
  | cons kv rest ih =>
    intro acc hnd hdisj
    have hstep : jsAssign acc kv.1 kv.2 = acc ++ [kv] := by
      have := jsAssign_of_not_mem acc kv.1 kv.2 (fun kv' hkv' hEq => by
        refine hdisj kv.1 ?_ ?_
        · rw [← hEq]; exact List.mem_map_of_mem Prod.fst hkv'
        · simp)
      simpa using this
    simp only [List.foldl_cons, hstep]
    rw [ih (acc ++ [kv]) (by simpa using (List.nodup_cons.mp (by simpa using hnd)).2)]
    · simp
    · intro k hk
      simp only [List.map_append, List.mem_append] at hk
      rcases hk with hk | hk
      · intro hmem
        exact hdisj k hk (by simp [hmem])
      · simp only [List.map_cons, List.map_nil, List.mem_singleton] at hk
        subst hk
        exact (List.nodup_cons.mp (by simpa using hnd)).1

theorem jsLookup_map_path {β : Type} (f : ByPathEntryData → β) :
    ∀ (dataList : List ByPathEntryData),
      ((dataList.map (fun d => d.path)).Nodup) →
      ∀ d ∈ dataList,
        jsLookup (dataList.map (fun d => (d.path, f d))) d.path = some (f d) := by
  intro dataList
  induction dataList with
  | nil => intro _ d hd; exact absurd hd (List.not_mem_nil d)
  | cons d0 rest ih =>
    intro hnd d hd
    rcases List.mem_cons.mp hd with rfl | hmem
    · simp [jsLookup]
    · have hne : ¬ (d0.path = d.path) := by
        intro hEq
        have hmm : d.path ∈ rest.map (fun d => d.path) :=
          List.mem_map_of_mem _ hmem
        rw [← hEq] at hmm
        exact (List.nodup_cons.mp (by simpa using hnd)).1 hmm
      have htail := ih (List.nodup_cons.mp (by simpa using hnd)).2 d hmem
      simpa [jsLookup, List.find?_cons, hne] using htail

/-! ## Claim C6 -/

/-- Claim C6: for each by-path entry, the fetcher issues a
get-parameters-by-path request and, whenever the response carries a
(truthy) continuation token, a follow-up request with exactly that token,
until a response carries none — the issued requests are precisely
`pathReq` at the token chain; the result for the path is the concatenation
of all pages' parameter lists in page order; any fuel at least the page
count suffices (termination under the eventually-token-free hypothesis);
and the returned mapping is keyed by the path string exactly as given in
each entry. -/
theorem getParametersByPaths_pagination (ssm : SSMClient) :
    (∀ (data : ByPathEntryData) (toks : List (Option String))
        (pages : List (List Parameter)) (fuel : Nat),
      PathDrains ssm data none toks pages → pages.length ≤ fuel →
        getParametersByPathTrace ssm data fuel none =
            some (toks.map (pathReq data), pages.flatten) ∧
          getParametersByPath ssm data fuel none = some pages.flatten) ∧
      (∀ (dataList : List ByPathEntryData) (fuel : Nat)
          (pagesOf : ByPathEntryData → List (List Parameter))
          (toksOf : ByPathEntryData → List (Option String)),
        (dataList.map (fun d => d.path)).Nodup →
        (∀ d ∈ dataList,
          PathDrains ssm d none (toksOf d) (pagesOf d) ∧
            (pagesOf d).length ≤ fuel) →
        getParametersByPaths ssm dataList fuel =
            some (dataList.map (fun d => (d.path, (pagesOf d).flatten))) ∧
          ∀ d ∈ dataList,
            jsLookup (dataList.map (fun d => (d.path, (pagesOf d).flatten)))
                d.path = some (pagesOf d).flatten) := by
  constructor
  · intro data toks pages fuel h hf
    have ht := pathDrains_trace ssm data h fuel hf
    exact ⟨ht, by simp [getParametersByPath, ht]⟩
  · intro dataList fuel pagesOf toksOf hnd hall
    constructor
    · cases hDL : dataList with
      | nil => rfl
      | cons d0 rest =>
        subst hDL
        have hmapM := mapM_option_eq_map
          (fun data => (getParametersByPath ssm data fuel none).map
            (fun parameters => (data.path, parameters)))
          (fun d => (d.path, (pagesOf d).flatten)) (d0 :: rest)
          (fun d hd => by
            have hp := pathDrains_trace ssm d (hall d hd).1 fuel (hall d hd).2
            simp [getParametersByPath, hp])
        have hfold := foldl_jsAssign_eq
          ((d0 :: rest).map (fun d => (d.path, (pagesOf d).flatten))) []
          (by simpa [List.map_map, Function.comp_def] using hnd)
          (by intro k hk; simp at hk)
        unfold getParametersByPaths
        rw [if_neg (by simp)]
        rw [hmapM, Option.map_some', hfold]
        simp
    · intro d hd
      exact jsLookup_map_path (fun d => (pagesOf d).flatten) dataList hnd d hd

/-- Witness for C6 on the two-page fixture: both pages are fetched (fuel
2 suffices), the requests chain the token `tok1`, the result is the
page-order concatenation, and the mapping is keyed by the path exactly as
given. -/
theorem getParametersByPaths_pagination_witness :
    getParametersByPathTrace svcTwoPages ⟨"/nested", none⟩ 2 none =
        some ([pathReq ⟨"/nested", none⟩ none,
          pathReq ⟨"/nested", none⟩ (some "tok1")],
          [paramPage1, paramPage2]) ∧
      getParametersByPath svcTwoPages ⟨"/nested", none⟩ 2 none =
        some [paramPage1, paramPage2] ∧
      getParametersByPaths svcTwoPages [⟨"/nested", none⟩] 2 =
        some [("/nested", [paramPage1, paramPage2])] ∧
      jsLookup [("/nested", [paramPage1, paramPage2])] "/nested" =
        some [paramPage1, paramPage2] := by
  have hdr : PathDrains svcTwoPages ⟨"/nested", none⟩ none
      [none, some "tok1"] [[paramPage1], [paramPage2]] :=
    .more none "tok1" [some "tok1"] [[paramPage2]] rfl
      (.last (some "tok1") rfl)
  have h1 := (getParametersByPaths_pagination svcTwoPages).1
    ⟨"/nested", none⟩ [none, some "tok1"] [[paramPage1], [paramPage2]] 2
    hdr (by decide)
  have h2 := (getParametersByPaths_pagination svcTwoPages).2
    [⟨"/nested", none⟩] 2 (fun _ => [[paramPage1], [paramPage2]])
    (fun _ => [none, some "tok1"]) (by simp)
    (fun d hd => by
      rcases List.mem_singleton.mp hd with rfl
      exact ⟨hdr, by decide⟩)
  exact ⟨h1.1, h1.2, h2.1, h2.2 ⟨"/nested", none⟩ (List.mem_singleton.mpr rfl)⟩

/-! ## Trailing-separator lemmas -/

theorem jsEndsWithSlash_append_slash (path : String) :
    jsEndsWithSlash (path ++ "/") = true := by
  simp only [jsEndsWithSlash]
  have : (path ++ "/").toList = path.toList ++ ['/'] := by
    simp [String.toList, String.data_append]
  rw [this, List.getLast?_concat]
  simp

theorem pathLenth_append_slash (path : String)
    (h : jsEndsWithSlash path = false) :
    pathLenth (path ++ "/") = pathLenth path := by
  simp only [pathLenth, jsEndsWithSlash_append_slash, h]
  have hlen : (path ++ "/").length = path.length + 1 := by
    rw [String.length_append]
    rfl
  rw [hlen]
  push_cast
  ring

theorem findValuesByPathStep_congr (p1 p2 : String)
    (h : pathLenth p1 = pathLenth p2) :
    findValuesByPathStep p1 = findValuesByPathStep p2 := by
  funext m p
  unfold findValuesByPathStep
  rw [h]

/-! ## Claim C7 -/

/-- Counterexample to claim C7 as stated: when the requested path already
ends with the separator, appending another `/` changes the reconstruction.
For `/a/` the parameter `/a/b/c` nests as `{b: {c: "v"}}`, while for
`/a//` the prefix-strip start moves one character right and the same
parameter lands flat as `{c: "v"}`. -/
theorem findValuesByPath_trailing_slash_cex :
    findValuesByPath [("/a/", [paramSlash])] "/a/" ≠
      findValuesByPath [("/a//", [paramSlash])] "/a//" := by
  intro hEq
  rw [show findValuesByPath [("/a/", [paramSlash])] "/a/" =
        .ok (.vObj [("b", .vObj [("c", .vStr "v")])]) from rfl,
    show findValuesByPath [("/a//", [paramSlash])] "/a//" =
        .ok (.vObj [("c", .vStr "v")]) from rfl] at hEq
  simp at hEq

/-- Claim C7 as amended: by-path reconstruction is invariant under adding
a trailing separator to a requested path that does not already end with
one — for every returned parameter list, path `p` and path `p ++ "/"`
rebuild structurally identical nested objects. -/
theorem findValuesByPath_trailing_slash (path : String)
    (ps : List Parameter) (h : jsEndsWithSlash path = false) :
    findValuesByPath [(path, ps)] path =
      findValuesByPath [(path ++ "/", ps)] (path ++ "/") := by
  unfold findValuesByPath
  have hl1 : jsLookup [(path, ps)] path = some ps := by simp [jsLookup]
  have hl2 : jsLookup [(path ++ "/", ps)] (path ++ "/") = some ps := by
    simp [jsLookup]
  rw [hl1, hl2,
    findValuesByPathStep_congr path (path ++ "/")
      (pathLenth_append_slash path h).symm]

/-- Witness for the amended C7 at `/nested` with a two-level parameter:
both spellings produce the same nested object. -/
theorem findValuesByPath_trailing_slash_witness :
    jsEndsWithSlash "/nested" = false ∧
      findValuesByPath [("/nested", [paramPage2])] "/nested" =
        findValuesByPath [("/nested/", [paramPage2])] "/nested/" :=
  ⟨rfl, findValuesByPath_trailing_slash "/nested" [paramPage2] rfl⟩

/-! ## Conversion lemma -/

theorem getParameterValue_eq_spec (p : Parameter) :
    getParameterValue p = specTypeBasedConversion p := by
  rcases p with ⟨N, T, V, Ver, S⟩
  simp only [getParameterValue, specTypeBasedConversion]
  by_cases hT : T = some "StringList"
  · subst hT
    cases V <;> rfl
  · rw [if_neg hT]
    cases T with
    | none => cases V <;> rfl
    | some t =>
      have ht : ¬ (t = "StringList") := fun hEq => hT (by rw [hEq])
      cases V <;> split <;> simp_all

/-! ## Claim C8 -/

/-- Claim C8: parameter-to-value conversion is determined solely by the
parameter's type — `StringList` splits the value on commas into an ordered
sequence, every other type yields the raw string, the empty string when
the value is absent (`specTypeBasedConversion` states the rule in the
specification's words); a successful by-name lookup returns exactly that
conversion of a parameter of the aggregated list; and the by-path reduce
step assigns exactly that conversion at its computed leaf position. -/
theorem conversion_by_type :
    (∀ p : Parameter, getParameterValue p = specTypeBasedConversion p) ∧
      (∀ (params : List Parameter) (name : String) (v : JsVal),
        findValue params name = .ok v →
        ∃ p ∈ params, v = specTypeBasedConversion p) ∧
      (∀ (path : String) (m : List (String × JsVal)) (p : Parameter)
          (nm : String), p.Name = some nm → nm ≠ "" →
        findValuesByPathStep path m p =
          if jsLastIndexOf nm '/' > pathLenth path then
            ensureAssign m
              (jsSplit (jsSubstring nm (pathLenth path) (jsLastIndexOf nm '/')) '/')
              (jsSubstrFrom nm (jsLastIndexOf nm '/' + 1))
              (specTypeBasedConversion p)
          else
            jsAssign m (jsSubstrFrom nm (jsLastIndexOf nm '/' + 1))
              (specTypeBasedConversion p)) := by
  refine ⟨getParameterValue_eq_spec, ?_, ?_⟩
  · intro params name v h
    unfold findValue at h
    cases hf : params.find?
        (fun p => name = jsTemplateStr p.Name ++ p.Selector.getD "") with
    | none => rw [hf] at h; cases h
    | some p =>
      rw [hf] at h
      refine ⟨p, List.mem_of_find?_eq_some hf, ?_⟩
      have hv : v = getParameterValue p := by
        cases h
        rfl
      rw [hv, getParameterValue_eq_spec]
  · intro path m p nm hName hne
    simp only [findValuesByPathStep, hName]
    rw [if_neg hne, getParameterValue_eq_spec]

/-- Witness for C8: the `StringList` parameter `/list` resolves by name to
the comma-split sequence (as the spec's conversion of a fetched
parameter), and the by-path step at path `/` assigns that same conversion
at the leaf `list`. -/
theorem conversion_by_type_witness :
    (∃ p ∈ [paramList],
        JsVal.vArr [.vStr "a", .vStr "b", .vStr "c"] =
          specTypeBasedConversion p) ∧
      findValuesByPathStep "/" [] paramList =
        jsAssign [] "list" (specTypeBasedConversion paramList) :=
  ⟨conversion_by_type.2.1 [paramList] "/list"
      (.vArr [.vStr "a", .vStr "b", .vStr "c"]) rfl,
    conversion_by_type.2.2 "/" [] paramList "/list" rfl (by decide)⟩

/-! ## Deep-copy lemmas -/

mutual

theorem deepCopy_eq : ∀ v : JsVal, deepCopy v = v
  | .vNull => rfl
  | .vBool _ => rfl
  | .vNum _ => rfl
  | .vStr _ => rfl
  | .vArr l => congrArg JsVal.vArr (deepCopyList_eq l)
  | .vObj m => congrArg JsVal.vObj (deepCopyFields_eq m)

theorem deepCopyList_eq : ∀ l : List JsVal, deepCopyList l = l
  | [] => rfl
  | v :: rest => by rw [deepCopyList, deepCopy_eq v, deepCopyList_eq rest]

theorem deepCopyFields_eq : ∀ m : List (String × JsVal), deepCopyFields m = m
  | [] => rfl
  | (k, v) :: rest => by
    rw [deepCopyFields, deepCopy_eq v, deepCopyFields_eq rest]

end

/-! ## Claim C9 -/

/-- Claim C9: with `mutate: false` the caller's input tree is never
altered (the caller-visible tree after the call is the input itself) while
the returned result is the fully-expanded deep structural copy — it equals
what the in-place run would return, since the JSON round-trip copy of
plain data is the value itself; with `mutate: true` (the default) the
object `inject` resolves with is the input reference itself, mutated in
place (the caller-visible tree and the resolution value are one and the
same tree). -/
theorem inject_mutate_contract (ssm : SSMClient) (obj : JsVal)
    (parser : ItemParser) (fuel : Nat) :
    (inject ssm obj ⟨false, parser⟩ fuel).2 = obj ∧
      (inject ssm obj ⟨false, parser⟩ fuel).1 =
        (inject ssm obj ⟨true, parser⟩ fuel).1 ∧
      (∀ v, (inject ssm obj ⟨true, parser⟩ fuel).1 = .ok v →
        (inject ssm obj ⟨true, parser⟩ fuel).2 = v) ∧
      deepCopy obj = obj ∧
      defaultOptions.mutate = true := by
  refine ⟨?_, ?_, ?_, deepCopy_eq obj, rfl⟩
  · simp only [inject]
    split
    · rfl
    · split
      · rfl
      · split
        · rfl
        · rfl
  · simp only [inject, deepCopy_eq, ite_self]
    split
    · rfl
    · split
      · rfl
      · split
        · rfl
        · rfl
  · intro v
    simp only [inject]
    split
    · intro hv
      exact absurd hv (by simp)
    · split
      · intro hv
        exact absurd hv (by simp)
      · split
        · intro hv
          exact absurd hv (by simp)
        · intro hv
          injection hv

/-- Witness for C9's in-place clause: on a reference-free object the
mutate-true run resolves with the input tree itself, and the caller-visible
tree equals that resolution value. -/
theorem inject_mutate_contract_witness :
    (inject trivialClient (.vObj [("a", .vStr "x")])
        ⟨true, defaultItemParser⟩ 1).2 = .vObj [("a", .vStr "x")] :=
  (inject_mutate_contract trivialClient (.vObj [("a", .vStr "x")])
      defaultItemParser 1).2.2.1 (.vObj [("a", .vStr "x")]) rfl
